import Mathlib

/-!
Shallow embedding of `src/firebase-storage.js` (the Glyph Store, Identity
Provider and Resolution Engine of the repository).

Modelling conventions:
* JavaScript objects used as string-keyed maps (`letteringImages`, `charMap`,
  `localStorage`) are association lists `List (String × β)` with JS object
  update semantics (`objSet`: overwrite in place if the key is present,
  append otherwise) and first-match lookup (`objGet`).
* The Firestore backend is modelled as `RemoteStore`: the append-only
  `globalGlyphs` collection is a list of `GlyphDoc` (a document's auto id is
  its position in the list, an opaque fresh identifier), and `userGlyphs` is
  an association list from user id to a `UserDoc`. A `UserDoc` keeps the
  nested `charMap` field that the loads read (absent field ≡ empty map,
  matching `data().charMap || {}`) separately from the literal top-level
  fields named `"charMap." ++ char` that the saves write:
  `setDoc(userGlyphRef, {["charMap." ++ char]: glyphId}, {merge: true})`
  follows the Web SDK semantics, where a dot-separated key in `setDoc` data
  is a literal field name (dot paths are interpreted only by `updateDoc`),
  so the write creates or overwrites the literal field and never touches
  the nested `charMap` (`setUserCharMerge`).
* `db` being `none` models the "Firebase not configured" state
  (`firebase-config.js` exporting a null handle).
* Nondeterminism is passed in explicitly: `now`/`rand` feed the identity
  minting in `getUserId`, `ts` is the server timestamp of a saved artifact,
  `rnd` is the `Math.random()` draw of `getRandomGlobalGlyph` (used modulo
  the number of matches), and `fl` says whether a per-character global-pool
  query throws (the thrown error is caught and turned into `null` by the
  source, which is what the model returns).
* JS argument values that may fail `typeof x === 'string'` checks are
  modelled by `JSVal`; a JS string's `startsWith` is the character-level
  prefix test `jsStartsWith`, and `key.replace(prefix, '')` on a key that
  starts with `prefix` is `String.drop` by the prefix length.
* Remote reads/writes themselves are modelled as succeeding; the only
  failure channels kept are the ones the verified claims are about
  (configuration-level unavailability, local-storage write failure
  `localStorageWorks`, and per-character query failure `fl`).
-/

/-- A JavaScript value passed where a string is expected: either an actual
string or some non-string value (which fails `typeof x === 'string'`). -/
inductive JSVal where
  | str (s : String)
  | nonstr
deriving DecidableEq, Repr

/-- A document of the `globalGlyphs` collection (append-only pool). -/
structure GlyphDoc where
  char : String
  imageData : String
  createdAt : Nat
  sourceUserId : String
deriving DecidableEq, Repr

/-- A `userGlyphs` document. `charMap` is the nested map field the loads
read via `data().charMap || {}` (an absent field is represented by `[]`);
`dotFields` holds the literal top-level fields named `"charMap." ++ char`
(keyed by their full field name, valued by a glyph id) that the dotted-key
`setDoc` merge writes. The code under verification only ever writes
`dotFields` and only ever reads `charMap`. -/
structure UserDoc where
  charMap : List (String × Nat)
  dotFields : List (String × Nat)
deriving DecidableEq, Repr

/-- The remote Firestore state: the `globalGlyphs` collection (document ids
are list positions) and the `userGlyphs` collection (user id ↦ document). -/
structure RemoteStore where
  globalGlyphs : List GlyphDoc
  userGlyphs : List (String × UserDoc)
deriving DecidableEq, Repr

/-- The whole mutable world the module touches: the remote store (`none`
when Firebase is not configured), the browser's `localStorage`, and whether
local-storage writes of image payloads succeed (quota/disabled). -/
structure St where
  db : Option RemoteStore
  localStorage : List (String × String)
  localStorageWorks : Bool
deriving DecidableEq, Repr

/-- The id returned by `saveLettering`: a Firestore document id in remote
mode, or the localStorage key used as a pseudo-id in fallback mode. -/
inductive GlyphId where
  | gid (n : Nat)
  | localKey (k : String)
deriving DecidableEq, Repr

/-- Errors thrown by `saveLettering`. The two invalid-input constructors
correspond to the two validation throws at the top of the function. -/
inductive SaveErr where
  | invalidCharacter
  | invalidImageData
  | storageUnavailable
deriving DecidableEq, Repr

/-- A resolved entry of `letteringImages`: the image and its provenance
(`"user"` for the caller's own glyph, `"global"` for a pool glyph). -/
structure Lettering where
  imageData : String
  source : String
deriving DecidableEq, Repr

/-- First-match lookup in a string-keyed association list (JS property
read). -/
def objGet {β : Type} : List (String × β) → String → Option β
  | [], _ => none
  | p :: rest, k => if p.1 = k then some p.2 else objGet rest k

/-- JS object property write: if the key is present every entry carrying it
is overwritten in place, otherwise the new entry is appended (insertion
order, as JS objects and `localStorage` iteration preserve it). -/
def objSet {β : Type} (m : List (String × β)) (k : String) (v : β) :
    List (String × β) :=
  if (objGet m k).isSome then m.map (fun p => if p.1 = k then (k, v) else p)
  else m ++ [(k, v)]

/-- A loop that walks `es` and inserts at most one key/value pair per
element into an accumulated JS object; the common shape of every
object-building loop in the source file. -/
def objFold {α β : Type} (f : α → Option (String × β)) :
    List α → List (String × β) → List (String × β)
  | [], acc => acc
  | e :: rest, acc =>
      objFold f rest (match f e with | some kv => objSet acc kv.1 kv.2 | none => acc)

/-- Character-level model of JS `s.startsWith(p)`. -/
def jsStartsWith (s p : String) : Bool :=
  p.data.isPrefixOf s.data

/-- Key of the persisted identity token in `localStorage`. -/
def USER_ID_KEY : String := "absurde_user_id"

/-- Model of `getUserId` (the Identity Provider): return the persisted
token, or mint `"user_" + Date.now() + "_" + <random suffix>` and persist
it. -/
def getUserId (now : Nat) (rand : String) (ls : List (String × String)) :
    String × List (String × String) :=
  match objGet ls USER_ID_KEY with
  | some userId => (userId, ls)
  | none =>
    let userId := "user_" ++ toString now ++ "_" ++ rand
    (userId, objSet ls USER_ID_KEY userId)

/-- Model of the `setDoc(userGlyphRef, {["charMap." ++ char]: glyphId},
{merge: true})` write with the Web SDK's semantics: in `setDoc` data a
dot-separated key is a *literal* field name (dot paths belong to
`updateDoc` only), so the merge creates the document if absent and creates
or overwrites the top-level field literally named `"charMap." ++ char`,
leaving the nested `charMap` field — the one the loads read — untouched,
and preserving every other field and every other user's document. -/
def setUserCharMerge (ugs : List (String × UserDoc)) (uid ch : String)
    (gid : Nat) : List (String × UserDoc) :=
  let doc := (objGet ugs uid).getD ⟨[], []⟩
  objSet ugs uid ⟨doc.charMap, objSet doc.dotFields ("charMap." ++ ch) gid⟩

/-- Model of `saveLettering(char, imageData)`: validate, then either write
through to Firestore (append a `globalGlyphs` document, merge the user's
pointer) or fall back to a `local_glyph_<uid>_<char>` localStorage key. -/
def saveLettering (char imageData : JSVal) (now : Nat) (rand : String)
    (ts : Nat) (st : St) : Except SaveErr GlyphId × St :=
  match char with
  | .nonstr => (.error .invalidCharacter, st)
  | .str c =>
    if c.length = 0 then (.error .invalidCharacter, st)
    else
      match imageData with
      | .nonstr => (.error .invalidImageData, st)
      | .str img =>
        if jsStartsWith img "data:image/" then
          let g := getUserId now rand st.localStorage
          match st.db with
          | none =>
            if st.localStorageWorks then
              let localKey := "local_glyph_" ++ g.1 ++ "_" ++ c
              (.ok (.localKey localKey),
                { st with localStorage := objSet g.2 localKey img })
            else (.error .storageUnavailable, { st with localStorage := g.2 })
          | some rs =>
            let glyphId := rs.globalGlyphs.length
            (.ok (.gid glyphId),
              { st with
                db := some
                  { globalGlyphs := rs.globalGlyphs ++ [⟨c, img, ts, g.1⟩],
                    userGlyphs := setUserCharMerge rs.userGlyphs g.1 c glyphId },
                localStorage := g.2 })
        else (.error .invalidImageData, st)

/-- Model of `loadUserLetterings()` (the spec's `loadOwnArtifacts`): the
user's own character ↦ image map, from Firestore pointers or from the
`local_glyph_` localStorage scan in fallback mode. -/
def loadUserLetterings (now : Nat) (rand : String) (st : St) :
    List (String × String) × St :=
  let g := getUserId now rand st.localStorage
  let st' := { st with localStorage := g.2 }
  match st.db with
  | none =>
    let pre := "local_glyph_" ++ g.1 ++ "_"
    (objFold (fun (kv : String × String) =>
        if jsStartsWith kv.1 pre ∧ kv.2 ≠ "" then
          some (kv.1.drop pre.length, kv.2) else none) g.2 [], st')
  | some rs =>
    match objGet rs.userGlyphs g.1 with
    | none => ([], st')
    | some doc =>
      (objFold (fun (cg : String × Nat) =>
          (rs.globalGlyphs[cg.2]?).map (fun d => (cg.1, d.imageData)))
        doc.charMap [], st')

/-- Model of `loadLetteringsForInteraction()`: like `loadUserLetterings`
but the images carry a `source: 'user'` tag and the raw `charMap` is also
returned (a broken pointer is skipped, an absent user document yields the
empty map). -/
def loadLetteringsForInteraction (now : Nat) (rand : String) (st : St) :
    (List (String × Lettering) × List (String × GlyphId)) × St :=
  let g := getUserId now rand st.localStorage
  let st' := { st with localStorage := g.2 }
  match st.db with
  | none =>
    let pre := "local_glyph_" ++ g.1 ++ "_"
    ((objFold (fun (kv : String × String) =>
        if jsStartsWith kv.1 pre ∧ kv.2 ≠ "" then
          some (kv.1.drop pre.length, Lettering.mk kv.2 "user") else none) g.2 [],
      objFold (fun (kv : String × String) =>
        if jsStartsWith kv.1 pre ∧ kv.2 ≠ "" then
          some (kv.1.drop pre.length, GlyphId.localKey kv.1) else none) g.2 []),
     st')
  | some rs =>
    let charMap := ((objGet rs.userGlyphs g.1).getD ⟨[], []⟩).charMap
    ((objFold (fun (cg : String × Nat) =>
        (rs.globalGlyphs[cg.2]?).map (fun d => (cg.1, Lettering.mk d.imageData "user")))
       charMap [],
      charMap.map (fun cg => (cg.1, GlyphId.gid cg.2))), st')

/-- Model of `getRandomGlobalGlyph(char)`: query the pool for exact matches
on `char`; `rnd` stands for the `Math.random()` draw (the source picks
`Math.floor(Math.random() * glyphs.length)`, always in range, here `rnd`
modulo the match count); `fl = true` models the query throwing, which the
source catches and converts to `null`. -/
def getRandomGlobalGlyph (char : String) (rnd : Nat) (fl : Bool) (st : St) :
    Option String :=
  match st.db with
  | none => none
  | some rs =>
    if fl then none
    else
      let glyphs := (rs.globalGlyphs.filter (fun g => g.char = char)).map
        (fun g => g.imageData)
      if glyphs.isEmpty then none
      else glyphs[rnd % glyphs.length]?

/-- The validation of `requiredChars` entries in
`loadAllLetteringsForInteraction`: keep exactly the non-empty strings. -/
def validChars (xs : List JSVal) : List String :=
  xs.filterMap (fun v =>
    match v with
    | .str s => if s.length > 0 then some s else none
    | .nonstr => none)

/-- Model of `loadAllLetteringsForInteraction(requiredChars)` (the spec's
`resolve`). The argument is `none` when the caller passed something that is
not an array (`Array.isArray` fails ⇒ return `{}`). Step 1 copies every own
lettering into the result; step 2 queries the global pool for each
validated required character not already present. -/
def loadAllLetteringsForInteraction (req : Option (List JSVal)) (now : Nat)
    (rand : String) (rnd : String → Nat) (fl : String → Bool) (st : St) :
    List (String × Lettering) × St :=
  match req with
  | none => ([], st)
  | some requiredChars =>
    let vcs := validChars requiredChars
    let r := loadLetteringsForInteraction now rand st
    let li1 := objFold (fun (p : String × Lettering) => some p) r.1.1 []
    let missing := vcs.filter (fun c => (objGet li1 c).isNone)
    (objFold (fun c =>
        (getRandomGlobalGlyph c (rnd c) (fl c) r.2).map
          (fun img => (c, Lettering.mk img "global"))) missing li1,
     r.2)


/-- Keys of an association list are pairwise distinct. -/
def NodupKeys {β : Type} (m : List (String × β)) : Prop :=
  (m.map Prod.fst).Nodup

/-- The `character` argument passes `saveLettering`'s validation: a
non-empty string. -/
def isValidCharArg : JSVal → Prop
  | .str s => s ≠ ""
  | .nonstr => False

/-- The `imageData` argument passes `saveLettering`'s validation: a string
beginning with the image-data marker. -/
def isValidImageArg : JSVal → Prop
  | .str s => jsStartsWith s "data:image/" = true
  | .nonstr => False

theorem objGet_append {β : Type} (m l : List (String × β)) (k : String) :
    objGet (m ++ l) k =
      match objGet m k with | some v => some v | none => objGet l k := by
  induction m with
  | nil => simp [objGet]
  | cons p rest ih => by_cases h : p.1 = k <;> simp [objGet, h, ih]

theorem objGet_isSome_iff {β : Type} (m : List (String × β)) (k : String) :
    (objGet m k).isSome = true ↔ ∃ p ∈ m, p.1 = k := by
  induction m with
  | nil => simp [objGet]
  | cons p rest ih =>
    simp only [objGet, List.mem_cons]
    by_cases h : p.1 = k
    · simp only [if_pos h, Option.isSome_some, true_iff]
      exact ⟨p, Or.inl rfl, h⟩
    · simp only [if_neg h, ih]
      constructor
      · rintro ⟨q, hq, hk⟩
        exact ⟨q, Or.inr hq, hk⟩
      · rintro ⟨q, hq | hq, hk⟩
        · exact absurd (hq ▸ hk) h
        · exact ⟨q, hq, hk⟩

theorem objGet_eq_none_iff {β : Type} (m : List (String × β)) (k : String) :
    objGet m k = none ↔ ∀ p ∈ m, p.1 ≠ k := by
  constructor
  · intro h p hp hk
    have hs := (objGet_isSome_iff m k).mpr ⟨p, hp, hk⟩
    rw [h] at hs
    simp at hs
  · intro h
    cases hh : objGet m k with
    | none => rfl
    | some v =>
      obtain ⟨p, hp, hk⟩ := (objGet_isSome_iff m k).mp (by rw [hh]; rfl)
      exact absurd hk (h p hp)

theorem objGet_mem {β : Type} {m : List (String × β)} {k : String} {v : β}
    (h : objGet m k = some v) : (k, v) ∈ m := by
  induction m with
  | nil => simp [objGet] at h
  | cons p rest ih =>
    by_cases hk : p.1 = k
    · simp only [objGet, if_pos hk, Option.some.injEq] at h
      have : p = (k, v) := Prod.ext hk h
      exact this ▸ List.mem_cons_self p rest
    · simp only [objGet, if_neg hk] at h
      exact List.mem_cons_of_mem p (ih h)

theorem objGet_map_overwrite {β : Type} {m : List (String × β)} {k : String}
    (v : β) (h : (objGet m k).isSome = true) :
    objGet (m.map (fun p => if p.1 = k then (k, v) else p)) k = some v := by
  induction m with
  | nil => simp [objGet] at h
  | cons p rest ih =>
    by_cases hk : p.1 = k
    · simp [objGet, hk]
    · simp only [objGet, if_neg hk] at h
      simp only [List.map_cons, if_neg hk, objGet, if_neg hk]
      exact ih h

theorem objGet_map_overwrite_ne {β : Type} {m : List (String × β)}
    {k k' : String} (v : β) (h : k' ≠ k) :
    objGet (m.map (fun p => if p.1 = k then (k, v) else p)) k' = objGet m k' := by
  induction m with
  | nil => simp
  | cons p rest ih =>
    by_cases hk : p.1 = k
    · have h1 : ¬(((k, v) : String × β).1 = k') := fun hh => h hh.symm
      have h2 : ¬(p.1 = k') := by
        rw [hk]
        exact fun hh => h hh.symm
      simp only [List.map_cons, if_pos hk, objGet, if_neg h1, if_neg h2]
      exact ih
    · simp only [List.map_cons, if_neg hk, objGet]
      by_cases hp : p.1 = k'
      · simp [hp]
      · simp only [if_neg hp]
        exact ih

theorem objGet_objSet_self {β : Type} (m : List (String × β)) (k : String)
    (v : β) : objGet (objSet m k v) k = some v := by
  unfold objSet
  by_cases h : (objGet m k).isSome = true
  · rw [if_pos h]
    exact objGet_map_overwrite v h
  · rw [if_neg h, objGet_append]
    have : objGet m k = none := Option.not_isSome_iff_eq_none.mp h
    rw [this]
    simp [objGet]

theorem objGet_objSet_ne {β : Type} (m : List (String × β)) {k k' : String}
    (v : β) (h : k' ≠ k) : objGet (objSet m k v) k' = objGet m k' := by
  unfold objSet
  by_cases hs : (objGet m k).isSome = true
  · rw [if_pos hs]
    exact objGet_map_overwrite_ne v h
  · rw [if_neg hs, objGet_append]
    cases hh : objGet m k' with
    | none =>
      have h1 : ¬(((k, v) : String × β).1 = k') := fun hh2 => h hh2.symm
      simp only [objGet, if_neg h1]
    | some w => simp

theorem mem_objSet_self {β : Type} (m : List (String × β)) (k : String)
    (v : β) : (k, v) ∈ objSet m k v := by
  unfold objSet
  by_cases h : (objGet m k).isSome = true
  · rw [if_pos h]
    obtain ⟨p, hp, hk⟩ := (objGet_isSome_iff m k).mp h
    exact List.mem_map.mpr ⟨p, hp, by simp [hk]⟩
  · rw [if_neg h]
    exact List.mem_append.mpr (Or.inr (List.mem_singleton.mpr rfl))

theorem objSet_keyval {β : Type} {m : List (String × β)} {k : String}
    {v x : β} (h : (k, x) ∈ objSet m k v) : x = v := by
  unfold objSet at h
  by_cases hs : (objGet m k).isSome = true
  · rw [if_pos hs] at h
    obtain ⟨q, hq, hfq⟩ := List.mem_map.mp h
    by_cases hqk : q.1 = k
    · rw [if_pos hqk] at hfq
      exact (Prod.mk.injEq _ _ _ _ ▸ hfq).2.symm
    · rw [if_neg hqk] at hfq
      exact absurd (congrArg Prod.fst hfq) hqk
  · rw [if_neg hs] at h
    rcases List.mem_append.mp h with hm | hm
    · have hnone := Option.not_isSome_iff_eq_none.mp hs
      exact absurd rfl ((objGet_eq_none_iff m k).mp hnone _ hm)
    · have := List.mem_singleton.mp hm
      exact (Prod.mk.injEq _ _ _ _ ▸ this).2

theorem mem_objSet_ne {β : Type} {m : List (String × β)} {k k' : String}
    {v v' : β} (h : k' ≠ k) : (k', v') ∈ objSet m k v ↔ (k', v') ∈ m := by
  unfold objSet
  by_cases hs : (objGet m k).isSome = true
  · rw [if_pos hs]
    constructor
    · intro hm
      obtain ⟨q, hq, hfq⟩ := List.mem_map.mp hm
      by_cases hqk : q.1 = k
      · rw [if_pos hqk] at hfq
        exact absurd (congrArg Prod.fst hfq).symm h
      · rw [if_neg hqk] at hfq
        exact hfq ▸ hq
    · intro hm
      refine List.mem_map.mpr ⟨(k', v'), hm, ?_⟩
      rw [if_neg h]
  · rw [if_neg hs]
    constructor
    · intro hm
      rcases List.mem_append.mp hm with hmm | hmm
      · exact hmm
      · exact absurd (congrArg Prod.fst (List.mem_singleton.mp hmm)) h
    · intro hm
      exact List.mem_append.mpr (Or.inl hm)

theorem mem_objSet_elim {β : Type} {m : List (String × β)} {k : String}
    {v : β} {p : String × β} (h : p ∈ objSet m k v) : p ∈ m ∨ p = (k, v) := by
  unfold objSet at h
  by_cases hs : (objGet m k).isSome = true
  · rw [if_pos hs] at h
    obtain ⟨q, hq, hfq⟩ := List.mem_map.mp h
    by_cases hqk : q.1 = k
    · rw [if_pos hqk] at hfq
      exact Or.inr hfq.symm
    · rw [if_neg hqk] at hfq
      exact Or.inl (hfq ▸ hq)
  · rw [if_neg hs] at h
    rcases List.mem_append.mp h with hm | hm
    · exact Or.inl hm
    · exact Or.inr (List.mem_singleton.mp hm)

theorem objFold_untouched {α β : Type} {f : α → Option (String × β)}
    {es : List α} {x : String}
    (h : ∀ e ∈ es, ∀ kv, f e = some kv → kv.1 ≠ x) :
    ∀ acc, objGet (objFold f es acc) x = objGet acc x := by
  induction es with
  | nil => intro acc; rfl
  | cons e rest ih =>
    intro acc
    have hrest : ∀ e' ∈ rest, ∀ kv, f e' = some kv → kv.1 ≠ x :=
      fun e' he' => h e' (List.mem_cons_of_mem e he')
    cases hfe : f e with
    | none => simpa [objFold, hfe] using ih hrest _
    | some kv =>
      have hne : kv.1 ≠ x := h e (List.mem_cons_self e rest) kv hfe
      calc objGet (objFold f (e :: rest) acc) x
          = objGet (objSet acc kv.1 kv.2) x := by
            simpa [objFold, hfe] using ih hrest _
        _ = objGet acc x := objGet_objSet_ne _ _ (Ne.symm hne)

theorem objFold_hits {α β : Type} {f : α → Option (String × β)}
    {es : List α} {x : String} {w : β}
    (hall : ∀ e ∈ es, ∀ v, f e = some (x, v) → v = w)
    (hex : ∃ e ∈ es, f e = some (x, w)) :
    ∀ acc, objGet (objFold f es acc) x = some w := by
  induction es with
  | nil =>
    obtain ⟨e, he, _⟩ := hex
    exact absurd he (List.not_mem_nil e)
  | cons e rest ih =>
    intro acc
    have hallrest : ∀ e' ∈ rest, ∀ v, f e' = some (x, v) → v = w :=
      fun e' he' => hall e' (List.mem_cons_of_mem e he')
    by_cases hr : ∃ e' ∈ rest, f e' = some (x, w)
    · cases hfe : f e with
      | none => simpa [objFold, hfe] using ih hallrest hr _
      | some kv => simpa [objFold, hfe] using ih hallrest hr _
    · have hfe : f e = some (x, w) := by
        rcases hex with ⟨e', he', hfe'⟩
        rcases List.mem_cons.mp he' with rfl | hmem
        · exact hfe'
        · exact absurd ⟨e', hmem, hfe'⟩ hr
      have hrestne : ∀ e' ∈ rest, ∀ kv, f e' = some kv → kv.1 ≠ x := by
        rintro e' he' ⟨k', v'⟩ hfe' hk
        subst hk
        have := hallrest e' he' v' hfe'
        exact hr ⟨e', he', this ▸ hfe'⟩
      calc objGet (objFold f (e :: rest) acc) x
          = objGet (objSet acc x w) x := by
            simpa [objFold, hfe] using objFold_untouched hrestne _
        _ = some w := objGet_objSet_self _ _ _

theorem objFold_value_inv {α β : Type} (P : β → Prop)
    {f : α → Option (String × β)} {es : List α}
    (hf : ∀ e ∈ es, ∀ kv, f e = some kv → P kv.2) :
    ∀ acc, (∀ p ∈ acc, P p.2) → ∀ p ∈ objFold f es acc, P p.2 := by
  induction es with
  | nil => intro acc hacc; exact hacc
  | cons e rest ih =>
    intro acc hacc
    have hfrest : ∀ e' ∈ rest, ∀ kv, f e' = some kv → P kv.2 :=
      fun e' he' => hf e' (List.mem_cons_of_mem e he')
    cases hfe : f e with
    | none =>
      intro p hp
      exact ih hfrest acc hacc p (by simpa [objFold, hfe] using hp)
    | some kv =>
      have hPkv : P kv.2 := hf e (List.mem_cons_self e rest) kv hfe
      have hacc' : ∀ p ∈ objSet acc kv.1 kv.2, P p.2 := by
        intro p hp
        rcases mem_objSet_elim hp with hm | rfl
        · exact hacc p hm
        · exact hPkv
      intro p hp
      exact ih hfrest _ hacc' p (by simpa [objFold, hfe] using hp)

theorem keys_objSet {β : Type} (m : List (String × β)) (k : String) (v : β) :
    (objSet m k v).map Prod.fst = m.map Prod.fst ∨
      (objSet m k v).map Prod.fst = m.map Prod.fst ++ [k] := by
  unfold objSet
  by_cases hs : (objGet m k).isSome = true
  · left
    rw [if_pos hs, List.map_map]
    refine List.map_congr_left ?_
    intro p _
    by_cases hk : p.1 = k
    · simp [hk]
    · simp [hk]
  · right
    rw [if_neg hs]
    simp

theorem nodupKeys_objSet {β : Type} {m : List (String × β)} (k : String)
    (v : β) (h : NodupKeys m) : NodupKeys (objSet m k v) := by
  unfold NodupKeys at *
  rcases keys_objSet m k v with hk | hk
  · rw [hk]; exact h
  · rw [hk]
    by_cases hs : (objGet m k).isSome = true
    · exfalso
      have : (objSet m k v).map Prod.fst = m.map Prod.fst := by
        unfold objSet
        rw [if_pos hs, List.map_map]
        refine List.map_congr_left ?_
        intro p _
        by_cases hpk : p.1 = k
        · simp [hpk]
        · simp [hpk]
      rw [this] at hk
      have := congrArg List.length hk
      simp at this
    · have hnone : objGet m k = none := Option.not_isSome_iff_eq_none.mp hs
      have hknot : k ∉ m.map Prod.fst := by
        intro hmem
        obtain ⟨p, hp, hpk⟩ := List.mem_map.mp hmem
        exact (objGet_eq_none_iff m k).mp hnone p hp hpk
      simp [List.nodup_append, h, hknot]

theorem nodupKeys_objFold {α β : Type} (f : α → Option (String × β))
    (es : List α) :
    ∀ acc, NodupKeys acc → NodupKeys (objFold f es acc) := by
  induction es with
  | nil => intro acc h; exact h
  | cons e rest ih =>
    intro acc h
    cases hfe : f e with
    | none => simpa [objFold, hfe] using ih _ h
    | some kv => simpa [objFold, hfe] using ih _ (nodupKeys_objSet kv.1 kv.2 h)

theorem objGet_objFold_copy {β : Type} {es : List (String × β)}
    (h : NodupKeys es) (x : String) :
    objGet (objFold (fun p => some p) es []) x = objGet es x := by
  have aux : ∀ (es : List (String × β)), NodupKeys es →
      ∀ acc, objGet (objFold (fun p => some p) es acc) x =
        match objGet es x with
        | some v => some v
        | none => objGet acc x := by
    intro es
    induction es with
    | nil => intro _ acc; rfl
    | cons p rest ih =>
      intro hnd acc
      have hndrest : NodupKeys rest := by
        unfold NodupKeys at hnd ⊢
        exact (List.nodup_cons.mp hnd).2
      have hnotin : p.1 ∉ rest.map Prod.fst := (List.nodup_cons.mp hnd).1
      by_cases hpx : p.1 = x
      · have hrestne : ∀ q ∈ rest, ∀ kv,
            (fun (p : String × β) => some p) q = some kv → kv.1 ≠ x := by
          rintro q hq kv hkv hkx
          apply hnotin
          rw [hpx]
          rcases Option.some.injEq _ _ ▸ hkv with rfl
          exact hkx ▸ List.mem_map.mpr ⟨q, hq, rfl⟩
        have : objGet (objFold (fun (p : String × β) => some p) (p :: rest) acc) x
            = objGet (objSet acc p.1 p.2) x := by
          simpa [objFold] using objFold_untouched hrestne _
        rw [this, hpx]
        have hx : objGet (p :: rest) x = some p.2 := by simp [objGet, hpx]
        rw [hx]
        exact objGet_objSet_self acc x p.2
      · have : objGet (objFold (fun (p : String × β) => some p) (p :: rest) acc) x
            = objGet (objFold (fun (p : String × β) => some p) rest (objSet acc p.1 p.2)) x := by
          simp [objFold]
        rw [this, ih hndrest]
        simp only [objGet, if_neg hpx]
        cases objGet rest x with
        | some v => rfl
        | none => exact objGet_objSet_ne acc _ (fun hh => hpx hh.symm)
  rw [aux es h []]
  cases objGet es x with
  | some v => rfl
  | none => rfl

theorem jsStartsWith_append (p t : String) : jsStartsWith (p ++ t) p = true := by
  unfold jsStartsWith
  rw [List.isPrefixOf_iff_prefix, String.data_append]
  exact List.prefix_append _ _

theorem jsStartsWith_exists {s p : String} (h : jsStartsWith s p = true) :
    ∃ t : List Char, s.data = p.data ++ t := by
  unfold jsStartsWith at h
  obtain ⟨t, ht⟩ := List.isPrefixOf_iff_prefix.mp h
  exact ⟨t, ht.symm⟩

theorem string_drop_append (p t : String) : (p ++ t).drop p.length = t := by
  apply String.ext
  rw [String.drop_eq]
  show List.drop p.length (p ++ t).data = t.data
  rw [String.data_append]
  have hl : p.length = p.data.length := rfl
  rw [hl]
  exact List.drop_left _ _

theorem jsStartsWith_reconstruct {s p : String} (h : jsStartsWith s p = true) :
    p ++ s.drop p.length = s := by
  obtain ⟨t, ht⟩ := jsStartsWith_exists h
  apply String.ext
  rw [String.data_append, String.drop_eq]
  show p.data ++ List.drop p.length s.data = s.data
  rw [ht]
  have hl : p.length = p.data.length := rfl
  rw [hl, List.drop_left]

theorem jsStartsWith_ne_empty {s p : String} (h : jsStartsWith s p = true)
    (hp : p ≠ "") : s ≠ "" := by
  obtain ⟨t, ht⟩ := jsStartsWith_exists h
  intro hs
  subst hs
  have hlen := congrArg List.length ht
  rw [List.length_append] at hlen
  have h0 : ("" : String).data.length = 0 := rfl
  rw [h0] at hlen
  have hpd : p.data = [] := List.length_eq_zero.mp (by omega)
  exact hp (String.ext hpd)

theorem userIdKey_no_glyph_prefix (x : String) :
    jsStartsWith USER_ID_KEY ("local_glyph_" ++ x) = false := by
  unfold jsStartsWith USER_ID_KEY
  rw [Bool.eq_false_iff]
  intro hT
  have hpre := List.isPrefixOf_iff_prefix.mp hT
  rw [String.data_append] at hpre
  have h1 : "local_glyph_".data = 'l' :: "ocal_glyph_".data := rfl
  have h2 : "absurde_user_id".data = 'a' :: "bsurde_user_id".data := rfl
  rw [h1, h2, List.cons_append] at hpre
  rcases List.cons_prefix_cons.mp hpre with ⟨hab, -⟩
  exact absurd hab (by decide)

theorem userIdKey_no_pre (uid : String) :
    jsStartsWith USER_ID_KEY ("local_glyph_" ++ uid ++ "_") = false := by
  rw [String.append_assoc]
  exact userIdKey_no_glyph_prefix (uid ++ "_")

theorem glyphKey_ne_userIdKey (y : String) :
    "local_glyph_" ++ y ≠ USER_ID_KEY := by
  intro h
  have hd := congrArg String.data h
  rw [String.data_append] at hd
  have h1 : "local_glyph_".data = 'l' :: "ocal_glyph_".data := rfl
  have h2 : USER_ID_KEY.data = 'a' :: "bsurde_user_id".data := rfl
  rw [h1, List.cons_append, h2] at hd
  injection hd with hc _
  exact absurd hc (by decide)

theorem str_length_ne_zero {s : String} (h : s ≠ "") : ¬s.length = 0 := by
  intro h0
  have hd : s.data = [] := List.length_eq_zero.mp h0
  exact h (String.ext hd)

theorem loadInteraction_state (now : Nat) (rand : String) (st : St) :
    (loadLetteringsForInteraction now rand st).2 =
      { st with localStorage := (getUserId now rand st.localStorage).2 } := by
  unfold loadLetteringsForInteraction
  cases hdb : st.db with
  | none => simp [hdb]
  | some rs => simp [hdb]

theorem loadInteraction_nodup (now : Nat) (rand : String) (st : St) :
    NodupKeys (loadLetteringsForInteraction now rand st).1.1 := by
  unfold loadLetteringsForInteraction
  cases hdb : st.db with
  | none =>
    simp only [hdb]
    exact nodupKeys_objFold _ _ [] List.nodup_nil
  | some rs =>
    simp only [hdb]
    exact nodupKeys_objFold _ _ [] List.nodup_nil

theorem loadInteraction_source (now : Nat) (rand : String) (st : St) :
    ∀ p ∈ (loadLetteringsForInteraction now rand st).1.1,
      p.2.source = "user" := by
  unfold loadLetteringsForInteraction
  cases hdb : st.db with
  | none =>
    simp only [hdb]
    refine objFold_value_inv (fun (d : Lettering) => d.source = "user") ?_ []
      (by intro p hp; simp at hp) 
    intro e _ kv hkv
    by_cases hc : jsStartsWith e.1 ("local_glyph_" ++
        (getUserId now rand st.localStorage).1 ++ "_") = true ∧ e.2 ≠ ""
    · rw [if_pos hc] at hkv
      cases hkv
      rfl
    · rw [if_neg hc] at hkv
      cases hkv
  | some rs =>
    simp only [hdb]
    refine objFold_value_inv (fun (d : Lettering) => d.source = "user") ?_ []
      (by intro p hp; simp at hp) 
    intro e _ kv hkv
    rcases Option.map_eq_some'.mp hkv with ⟨d, _, hd⟩
    cases hd
    rfl

theorem loadAll_lookup (xs : List JSVal) (now : Nat) (rand : String)
    (rnd : String → Nat) (fl : String → Bool) (st : St) (x : String) :
    objGet (loadAllLetteringsForInteraction (some xs) now rand rnd fl st).1 x =
      match objGet (loadLetteringsForInteraction now rand st).1.1 x with
      | some d => some d
      | none =>
        if x ∈ validChars xs then
          (getRandomGlobalGlyph x (rnd x) (fl x)
            (loadLetteringsForInteraction now rand st).2).map
            (fun img => Lettering.mk img "global")
        else none := by
  have hnodup := loadInteraction_nodup now rand st
  simp only [loadAllLetteringsForInteraction]
  set r := loadLetteringsForInteraction now rand st with hr
  set li1 := objFold (fun (p : String × Lettering) => some p) r.1.1 [] with hli1
  set missing := (validChars xs).filter (fun c => (objGet li1 c).isNone)
    with hmissing
  set f := fun c => (getRandomGlobalGlyph c (rnd c) (fl c) r.2).map
    (fun img => Lettering.mk img "global") with hf
  set stepf := fun c => (getRandomGlobalGlyph c (rnd c) (fl c) r.2).map
    (fun img => (c, Lettering.mk img "global")) with hstepf
  have hcopy : ∀ y, objGet li1 y = objGet r.1.1 y := by
    intro y
    rw [hli1]
    exact objGet_objFold_copy hnodup y
  have hstep_key : ∀ e kv, stepf e = some kv → kv.1 = e := by
    intro e kv hkv
    rcases Option.map_eq_some'.mp hkv with ⟨img, _, hkv2⟩
    rw [← hkv2]
  cases hown : objGet r.1.1 x with
  | some d =>
    have huntouched : ∀ e ∈ missing, ∀ kv, stepf e = some kv → kv.1 ≠ x := by
      intro e he kv hkv
      rw [hstep_key e kv hkv]
      intro hex
      subst hex
      have := (List.mem_filter.mp he).2
      rw [hcopy, hown] at this
      simp at this
    rw [objFold_untouched huntouched li1, hcopy, hown]
  | none =>
    by_cases hx : x ∈ validChars xs
    · cases hg : getRandomGlobalGlyph x (rnd x) (fl x) r.2 with
      | some img =>
        have hall : ∀ e ∈ missing, ∀ v,
            stepf e = some (x, v) → v = Lettering.mk img "global" := by
          intro e _ v hkv
          have hkey := hstep_key e (x, v) hkv
          simp only at hkey
          subst hkey
          rw [hstepf] at hkv
          simp only [hg, Option.map_some'] at hkv
          cases hkv
          rfl
        have hex : ∃ e ∈ missing, stepf e = some (x, Lettering.mk img "global") := by
          refine ⟨x, List.mem_filter.mpr ⟨hx, ?_⟩, ?_⟩
          · rw [hcopy, hown]
            rfl
          · rw [hstepf]
            simp [hg]
        rw [objFold_hits hall hex li1]
        simp [hx]
      | none =>
        have huntouched : ∀ e ∈ missing, ∀ kv, stepf e = some kv → kv.1 ≠ x := by
          intro e _ kv hkv
          rw [hstep_key e kv hkv]
          intro hex
          subst hex
          rw [hstepf] at hkv
          simp [hg] at hkv
        rw [objFold_untouched huntouched li1, hcopy, hown]
        simp [hx]
    · have huntouched : ∀ e ∈ missing, ∀ kv, stepf e = some kv → kv.1 ≠ x := by
        intro e he kv hkv
        rw [hstep_key e kv hkv]
        intro hex
        subst hex
        exact hx (List.mem_filter.mp he).1
      rw [objFold_untouched huntouched li1, hcopy, hown, if_neg hx]

/-- C9: when the `requiredCharacters` argument is not an array at all,
`resolve` returns an empty mapping, leaves the state untouched and does not
throw. -/
theorem resolve_nonArray_returns_empty (now : Nat) (rand : String)
    (rnd : String → Nat) (fl : String → Bool) (st : St) :
    loadAllLetteringsForInteraction none now rand rnd fl st = ([], st) := rfl

/-- C3: when `character` is not a non-empty string or `image` is not a
string starting with the image-data marker, `save` fails with an
invalid-input error and mutates neither the remote store nor local storage
(the returned state is exactly the input state). -/
theorem save_invalid_input (char imageData : JSVal) (now : Nat)
    (rand : String) (ts : Nat) (st : St)
    (h : ¬isValidCharArg char ∨ ¬isValidImageArg imageData) :
    ∃ e, saveLettering char imageData now rand ts st = (.error e, st) ∧
      (e = SaveErr.invalidCharacter ∨ e = SaveErr.invalidImageData) := by
  cases char with
  | nonstr => exact ⟨.invalidCharacter, rfl, Or.inl rfl⟩
  | str c =>
    by_cases hc : c.length = 0
    · exact ⟨.invalidCharacter, by simp [saveLettering, hc], Or.inl rfl⟩
    · have hcv : isValidCharArg (.str c) := by
        show c ≠ ""
        intro hce
        exact hc (by rw [hce]; rfl)
      rcases h with h | h
      · exact absurd hcv h
      · cases imageData with
        | nonstr =>
          exact ⟨.invalidImageData, by simp [saveLettering, hc], Or.inr rfl⟩
        | str s =>
          have hs : jsStartsWith s "data:image/" = false := by
            cases hb : jsStartsWith s "data:image/"
            · rfl
            · exact absurd hb h
          exact ⟨.invalidImageData, by simp [saveLettering, hc, hs], Or.inr rfl⟩

theorem save_invalid_input_witness :
    ∃ e, saveLettering (.str "") (.str "data:image/png") 0 "r" 0
        ⟨none, [], true⟩ = (.error e, ⟨none, [], true⟩) ∧
      (e = SaveErr.invalidCharacter ∨ e = SaveErr.invalidImageData) :=
  save_invalid_input (.str "") (.str "data:image/png") 0 "r" 0
    ⟨none, [], true⟩ (Or.inl (by simp [isValidCharArg]))

/-- C8: the Identity Provider is idempotent given working local storage:
two successive calls return equal tokens; the first call on a fresh device
mints `"user_" + <millisecond timestamp> + "_" + <random suffix>` and
persists it; any later call returns the persisted token unchanged. -/
theorem getUserId_idempotent (ls : List (String × String)) (now now2 : Nat)
    (rand rand2 : String) :
    (getUserId now2 rand2 (getUserId now rand ls).2).1 =
      (getUserId now rand ls).1 ∧
    (objGet ls USER_ID_KEY = none →
      getUserId now rand ls =
        ("user_" ++ toString now ++ "_" ++ rand,
         objSet ls USER_ID_KEY ("user_" ++ toString now ++ "_" ++ rand))) ∧
    (∀ u, objGet ls USER_ID_KEY = some u → getUserId now rand ls = (u, ls)) := by
  refine ⟨?_, ?_, ?_⟩
  · cases hk : objGet ls USER_ID_KEY with
    | some u => simp [getUserId, hk]
    | none =>
      have h1 : getUserId now rand ls =
          ("user_" ++ toString now ++ "_" ++ rand,
           objSet ls USER_ID_KEY ("user_" ++ toString now ++ "_" ++ rand)) := by
        simp [getUserId, hk]
      rw [h1]
      simp [getUserId, objGet_objSet_self]
  · intro hk
    simp [getUserId, hk]
  · intro u hk
    simp [getUserId, hk]

theorem getUserId_idempotent_witness :
    (getUserId 99 "zzz" (getUserId 3 "abc" []).2).1 =
      (getUserId 3 "abc" []).1 ∧
    getUserId 3 "abc" [] =
      ("user_" ++ toString 3 ++ "_" ++ "abc",
       objSet [] USER_ID_KEY ("user_" ++ toString 3 ++ "_" ++ "abc")) :=
  ⟨(getUserId_idempotent [] 3 99 "abc" "zzz").1,
   (getUserId_idempotent [] 3 99 "abc" "zzz").2.1 rfl⟩

/-- C6 counterexample: with `requiredChars = ["a"]`, a character `"x"` the
user saved but did not request still appears in the result of `resolve`
(the step-1 loop copies every own lettering, not only working-set ones), so
the result does not contain entries only for the validated working set. -/
theorem resolve_extra_own_entry_counterexample :
    objGet (loadAllLetteringsForInteraction (some [JSVal.str "a"]) 0 "r"
        (fun _ => 0) (fun _ => false)
        ⟨some ⟨[⟨"x", "data:image/png;own", 0, "u"⟩],
              [("u", ⟨[("x", 0)], []⟩)]⟩,
          [("absurde_user_id", "u")], true⟩).1 "x" =
      some ⟨"data:image/png;own", "user"⟩ ∧
    "x" ∉ validChars [JSVal.str "a"] := by
  constructor
  · decide
  · decide

/-- C6 (amended): every character with an entry in the `resolve` result is
either a character of the caller's own lettering map (own entries are
copied into the result even when outside `requiredCharacters`) or a member
of the validated working set; GLOBAL entries are only created for
working-set characters. -/
theorem resolve_result_keys (xs : List JSVal) (now : Nat) (rand : String)
    (rnd : String → Nat) (fl : String → Bool) (st : St) (x : String)
    (h : (objGet (loadAllLetteringsForInteraction (some xs) now rand rnd fl
        st).1 x).isSome = true) :
    (objGet (loadLetteringsForInteraction now rand st).1.1 x).isSome = true ∨
      x ∈ validChars xs := by
  rw [loadAll_lookup] at h
  cases hown : objGet (loadLetteringsForInteraction now rand st).1.1 x with
  | some d =>
    left
    rfl
  | none =>
    rw [hown] at h
    by_cases hx : x ∈ validChars xs
    · exact Or.inr hx
    · rw [if_neg hx] at h
      simp at h

theorem resolve_result_keys_witness :
    (objGet (loadAllLetteringsForInteraction (some [JSVal.str "a"]) 0 "r"
        (fun _ => 0) (fun _ => false)
        ⟨some ⟨[⟨"x", "data:image/png;own", 0, "u"⟩],
              [("u", ⟨[("x", 0)], []⟩)]⟩,
          [("absurde_user_id", "u")], true⟩).1 "x").isSome = true ∧
    ((objGet (loadLetteringsForInteraction 0 "r"
        ⟨some ⟨[⟨"x", "data:image/png;own", 0, "u"⟩],
              [("u", ⟨[("x", 0)], []⟩)]⟩,
          [("absurde_user_id", "u")], true⟩).1.1 "x").isSome = true ∨
      "x" ∈ validChars [JSVal.str "a"]) := by
  constructor
  · decide
  · exact resolve_result_keys [JSVal.str "a"] 0 "r" (fun _ => 0)
      (fun _ => false)
      ⟨some ⟨[⟨"x", "data:image/png;own", 0, "u"⟩],
            [("u", ⟨[("x", 0)], []⟩)]⟩,
        [("absurde_user_id", "u")], true⟩ "x" (by decide)

/-- C5: graceful absence. When character `c` has no own entry and its
global-pool lookup yields nothing (store disabled, query error, or no
matching artifact), `resolve` returns no entry for `c` (and, being a total
function, never throws); moreover the failure status of `c`'s lookup has no
influence on any other character's result, so one missing or erroring
character never aborts the resolution of the others. -/
theorem resolve_graceful_absence (xs : List JSVal) (now : Nat)
    (rand : String) (rnd : String → Nat) (fl : String → Bool) (st : St)
    (c : String)
    (hown : objGet (loadLetteringsForInteraction now rand st).1.1 c = none)
    (habs : st.db = none ∨ fl c = true ∨
      ∀ rs, st.db = some rs →
        rs.globalGlyphs.filter (fun g => g.char = c) = []) :
    objGet (loadAllLetteringsForInteraction (some xs) now rand rnd fl st).1 c
        = none ∧
    ∀ (fl' : String → Bool) (x : String), x ≠ c →
      (∀ y, y ≠ c → fl' y = fl y) →
      objGet (loadAllLetteringsForInteraction (some xs) now rand rnd fl'
          st).1 x =
        objGet (loadAllLetteringsForInteraction (some xs) now rand rnd fl
          st).1 x := by
  have hdb : (loadLetteringsForInteraction now rand st).2.db = st.db := by
    rw [loadInteraction_state]
  have hgrg : getRandomGlobalGlyph c (rnd c) (fl c)
      (loadLetteringsForInteraction now rand st).2 = none := by
    unfold getRandomGlobalGlyph
    rw [hdb]
    cases hstdb : st.db with
    | none => rfl
    | some rs =>
      rcases habs with h | h | h
      · rw [h] at hstdb
        cases hstdb
      · simp [h]
      · have hflt := h rs hstdb
        cases hfl : fl c
        · simp [hfl, hflt]
        · simp [hfl]
  constructor
  · rw [loadAll_lookup, hown, hgrg]
    simp
  · intro fl' x hx hagree
    rw [loadAll_lookup, loadAll_lookup]
    cases hox : objGet (loadLetteringsForInteraction now rand st).1.1 x with
    | some d => rfl
    | none => rw [hagree x hx]

theorem resolve_graceful_absence_witness :
    objGet (loadAllLetteringsForInteraction (some [JSVal.str "c"]) 0 "r"
        (fun _ => 0) (fun _ => false)
        ⟨none, [("absurde_user_id", "u")], true⟩).1 "c" = none ∧
    objGet (loadAllLetteringsForInteraction (some [JSVal.str "c"]) 0 "r"
        (fun _ => 0) (fun _ => true)
        ⟨none, [("absurde_user_id", "u")], true⟩).1 "z" =
      objGet (loadAllLetteringsForInteraction (some [JSVal.str "c"]) 0 "r"
        (fun _ => 0) (fun _ => false)
        ⟨none, [("absurde_user_id", "u")], true⟩).1 "z" := by
  refine ⟨(resolve_graceful_absence [JSVal.str "c"] 0 "r" (fun _ => 0)
    (fun _ => false) ⟨none, [("absurde_user_id", "u")], true⟩ "c"
    (by decide) (Or.inl rfl)).1, ?_⟩
  · decide

/-- C7: global fallback. If the caller has no own entry for `c`, `c` is
required (as a non-empty string), the per-character query does not error,
and the pool holds at least one artifact whose `char` equals `c` exactly,
then `resolve` returns a GLOBAL entry for `c` whose image is one of the
matching pool artifacts' images. -/
theorem resolve_global_fallback (xs : List JSVal) (now : Nat)
    (rand : String) (rnd : String → Nat) (fl : String → Bool) (st : St)
    (rs : RemoteStore) (c : String) (hdb : st.db = some rs)
    (hreq : JSVal.str c ∈ xs) (hc : c ≠ "") (hfl : fl c = false)
    (hown : objGet (loadLetteringsForInteraction now rand st).1.1 c = none)
    (hpool : rs.globalGlyphs.filter (fun g => g.char = c) ≠ []) :
    ∃ img,
      objGet (loadAllLetteringsForInteraction (some xs) now rand rnd fl
          st).1 c = some (Lettering.mk img "global") ∧
      img ∈ (rs.globalGlyphs.filter (fun g => g.char = c)).map
        (fun g => g.imageData) := by
  have hlen : 0 < c.length := Nat.pos_of_ne_zero (str_length_ne_zero hc)
  have hcv : c ∈ validChars xs := by
    unfold validChars
    refine List.mem_filterMap.mpr ⟨JSVal.str c, hreq, ?_⟩
    simp [hlen]
  have hdb2 : (loadLetteringsForInteraction now rand st).2.db = some rs := by
    rw [loadInteraction_state]
    exact hdb
  set glyphs := (rs.globalGlyphs.filter (fun g => g.char = c)).map
    (fun g => g.imageData) with hglyphs
  have hgne : glyphs ≠ [] := by
    rw [hglyphs]
    intro hnil
    exact hpool (List.map_eq_nil_iff.mp hnil)
  have hlenpos : 0 < glyphs.length := List.length_pos.mpr hgne
  have hidx : rnd c % glyphs.length < glyphs.length :=
    Nat.mod_lt _ hlenpos
  have hie : glyphs.isEmpty = false := by
    cases hie2 : glyphs.isEmpty
    · rfl
    · exact absurd (List.isEmpty_iff.mp hie2) hgne
  have hgrg : getRandomGlobalGlyph c (rnd c) (fl c)
      (loadLetteringsForInteraction now rand st).2 =
        some (glyphs.get ⟨rnd c % glyphs.length, hidx⟩) := by
    unfold getRandomGlobalGlyph
    rw [hdb2]
    simp only [hfl, Bool.false_eq_true, if_false, ← hglyphs, hie,
      List.getElem?_eq_getElem hidx]
    rfl
  refine ⟨glyphs.get ⟨rnd c % glyphs.length, hidx⟩, ?_, ?_⟩
  · rw [loadAll_lookup, hown, if_pos hcv, hgrg]
    rfl
  · exact List.get_mem _ _ _

theorem resolve_global_fallback_witness :
    ∃ img,
      objGet (loadAllLetteringsForInteraction (some [JSVal.str "A"]) 0 "r"
          (fun _ => 1) (fun _ => false)
          ⟨some ⟨[⟨"A", "data:image/png;g1", 0, "w"⟩,
                 ⟨"A", "data:image/png;g2", 0, "w"⟩], []⟩,
            [("absurde_user_id", "u")], true⟩).1 "A" =
        some (Lettering.mk img "global") ∧
      img ∈ (([⟨"A", "data:image/png;g1", 0, "w"⟩,
              ⟨"A", "data:image/png;g2", 0, "w"⟩] : List GlyphDoc).filter
            (fun g => g.char = "A")).map (fun g => g.imageData) :=
  resolve_global_fallback [JSVal.str "A"] 0 "r" (fun _ => 1)
    (fun _ => false)
    ⟨some ⟨[⟨"A", "data:image/png;g1", 0, "w"⟩,
           ⟨"A", "data:image/png;g2", 0, "w"⟩], []⟩,
      [("absurde_user_id", "u")], true⟩
    ⟨[⟨"A", "data:image/png;g1", 0, "w"⟩,
      ⟨"A", "data:image/png;g2", 0, "w"⟩], []⟩ "A" rfl (by decide)
    (by decide) rfl (by decide) (by decide)

theorem localLoad_hits (ls : List (String × String)) (pre ch img : String)
    (hmemkey : (pre ++ ch, img) ∈ ls)
    (hval : ∀ v, (pre ++ ch, v) ∈ ls → v = img)
    (himg : img ≠ "") :
    objGet (objFold (fun (kv : String × String) =>
      if jsStartsWith kv.1 pre ∧ kv.2 ≠ "" then
        some (kv.1.drop pre.length, kv.2) else none) ls []) ch = some img := by
  apply objFold_hits
  · rintro ⟨k, v⟩ hmem w hkv
    by_cases hcond : jsStartsWith k pre = true ∧ v ≠ ""
    · rw [if_pos hcond] at hkv
      injection hkv with h1
      have hk : k.drop pre.length = ch := congrArg Prod.fst h1
      have hw : v = w := congrArg Prod.snd h1
      have hkeq : k = pre ++ ch := by
        rw [← hk]
        exact (jsStartsWith_reconstruct hcond.1).symm
      rw [← hw]
      exact hval v (hkeq ▸ hmem)
    · rw [if_neg hcond] at hkv
      cases hkv
  · refine ⟨(pre ++ ch, img), hmemkey, ?_⟩
    have hcond : jsStartsWith (pre ++ ch) pre = true ∧ img ≠ "" :=
      ⟨jsStartsWith_append pre ch, himg⟩
    rw [if_pos hcond, string_drop_append]

/-- C4: local fallback round trip. With the remote store disabled and local
storage working, `save(id, c, img)` writes `img` under the local key scoped
to `(id, c)` (overwriting any previous entry at that key, since `objSet`
replaces in place), returns that key as the pseudo-artifact id, and a
subsequent `loadOwnArtifacts(id)` maps `c` back to `img` using only local
storage. -/
theorem save_local_roundtrip (st : St) (id c img : String)
    (now1 now2 : Nat) (rand1 rand2 : String) (ts : Nat)
    (hdb : st.db = none) (hw : st.localStorageWorks = true)
    (hid : objGet st.localStorage USER_ID_KEY = some id)
    (hc : c ≠ "") (himg : jsStartsWith img "data:image/" = true) :
    saveLettering (.str c) (.str img) now1 rand1 ts st =
      (.ok (.localKey ("local_glyph_" ++ id ++ "_" ++ c)),
       ⟨none, objSet st.localStorage ("local_glyph_" ++ id ++ "_" ++ c) img,
        st.localStorageWorks⟩) ∧
    objGet (loadUserLetterings now2 rand2
        (saveLettering (.str c) (.str img) now1 rand1 ts st).2).1 c =
      some img := by
  have hlc : ¬(c.length = 0) := str_length_ne_zero hc
  have hga1 : getUserId now1 rand1 st.localStorage = (id, st.localStorage) := by
    simp [getUserId, hid]
  set key := "local_glyph_" ++ id ++ "_" ++ c with hkey
  set pre := "local_glyph_" ++ id ++ "_" with hpre
  have hkeypre : key = pre ++ c := rfl
  set ls1 := objSet st.localStorage key img with hls1
  have hsave : saveLettering (.str c) (.str img) now1 rand1 ts st =
      (.ok (.localKey key), ⟨none, ls1, st.localStorageWorks⟩) := by
    unfold saveLettering
    simp only [if_neg hlc, himg, if_true, hga1, hdb, hw, hls1]
  have hkeyform : key = "local_glyph_" ++ (id ++ ("_" ++ c)) := by
    rw [hkey, String.append_assoc, String.append_assoc]
  have hkne : USER_ID_KEY ≠ key := by
    rw [hkeyform]
    intro hh
    exact glyphKey_ne_userIdKey (id ++ ("_" ++ c)) hh.symm
  have hgid : objGet ls1 USER_ID_KEY = some id := by
    rw [hls1, objGet_objSet_ne _ _ hkne]
    exact hid
  have hga2 : getUserId now2 rand2 ls1 = (id, ls1) := by
    simp [getUserId, hgid]
  have hne : img ≠ "" :=
    jsStartsWith_ne_empty himg (by decide)
  have hload : objGet (loadUserLetterings now2 rand2
      ⟨none, ls1, st.localStorageWorks⟩).1 c = some img := by
    unfold loadUserLetterings
    simp only [hga2]
    apply localLoad_hits
    · rw [← hkeypre]
      exact mem_objSet_self st.localStorage key img
    · intro v hv
      rw [← hkeypre] at hv
      exact objSet_keyval hv
    · exact hne
  refine ⟨hsave, ?_⟩
  have hsaves : (saveLettering (.str c) (.str img) now1 rand1 ts st).2 =
      ⟨none, ls1, st.localStorageWorks⟩ := by
    rw [hsave]
  rw [hsaves]
  exact hload

/-- C10: in the local-fallback path `loadOwnArtifacts` keeps every local
entry whose key begins with the caller's prefix `local_glyph_<id>_`,
deriving the character by stripping that prefix. Hence when identity
`idB = idA ++ "_" ++ more` saves character `c` in local mode, the entry is
also included in `loadOwnArtifacts(idA)` (here: after the persisted
identity token switches to `idA` on the same device) under the mangled
character key `more ++ "_" ++ c`: local entries are not strictly scoped to
exactly one identity. -/
theorem local_prefix_aliasing (st : St) (idA more c img : String)
    (now1 now2 : Nat) (rand1 rand2 : String) (ts : Nat)
    (hdb : st.db = none) (hw : st.localStorageWorks = true)
    (hidB : objGet st.localStorage USER_ID_KEY = some (idA ++ "_" ++ more))
    (hc : c ≠ "") (himg : jsStartsWith img "data:image/" = true) :
    objGet (loadUserLetterings now2 rand2
        ⟨none,
         objSet ((saveLettering (.str c) (.str img) now1 rand1 ts
             st).2).localStorage USER_ID_KEY idA,
         st.localStorageWorks⟩).1 (more ++ "_" ++ c) = some img := by
  have hlc : ¬(c.length = 0) := str_length_ne_zero hc
  set idB := idA ++ "_" ++ more with hidBdef
  have hga1 : getUserId now1 rand1 st.localStorage = (idB, st.localStorage) := by
    simp [getUserId, hidB]
  set keyB := "local_glyph_" ++ idB ++ "_" ++ c with hkeyB
  set preA := "local_glyph_" ++ idA ++ "_" with hpreA
  have hkeyform : keyB = preA ++ (more ++ "_" ++ c) := by
    rw [hkeyB, hidBdef, hpreA]
    simp only [String.append_assoc]
  have hkeyglyph : keyB = "local_glyph_" ++ (idB ++ ("_" ++ c)) := by
    rw [hkeyB, String.append_assoc, String.append_assoc]
  have hkne : keyB ≠ USER_ID_KEY := by
    rw [hkeyglyph]
    exact glyphKey_ne_userIdKey (idB ++ ("_" ++ c))
  set ls1 := objSet st.localStorage keyB img with hls1
  have hsave : (saveLettering (.str c) (.str img) now1 rand1 ts st).2 =
      ⟨none, ls1, st.localStorageWorks⟩ := by
    have h1 : saveLettering (.str c) (.str img) now1 rand1 ts st =
        (.ok (.localKey keyB), ⟨none, ls1, st.localStorageWorks⟩) := by
      unfold saveLettering
      simp only [if_neg hlc, himg, if_true, hga1, hdb, hw, hls1]
    rw [h1]
  set ls2 := objSet ls1 USER_ID_KEY idA with hls2
  have hgid : objGet ls2 USER_ID_KEY = some idA := objGet_objSet_self _ _ _
  have hga2 : getUserId now2 rand2 ls2 = (idA, ls2) := by
    simp [getUserId, hgid]
  have hne : img ≠ "" := jsStartsWith_ne_empty himg (by decide)
  rw [hsave]
  show objGet (loadUserLetterings now2 rand2 ⟨none, ls2, st.localStorageWorks⟩).1
      (more ++ "_" ++ c) = some img
  unfold loadUserLetterings
  simp only [hga2]
  apply localLoad_hits
  · rw [← hkeyform, hls2]
    exact (mem_objSet_ne hkne).mpr (mem_objSet_self st.localStorage keyB img)
  · intro v hv
    rw [← hkeyform, hls2] at hv
    exact objSet_keyval ((mem_objSet_ne hkne).mp hv)
  · exact hne

theorem save_local_roundtrip_witness :
    saveLettering (.str "a") (.str "data:image/png;1") 0 "r" 0
        ⟨none, [("absurde_user_id", "u")], true⟩ =
      (.ok (.localKey ("local_glyph_" ++ "u" ++ "_" ++ "a")),
       ⟨none, objSet [("absurde_user_id", "u")]
           ("local_glyph_" ++ "u" ++ "_" ++ "a") "data:image/png;1",
        true⟩) ∧
    objGet (loadUserLetterings 1 "s"
        (saveLettering (.str "a") (.str "data:image/png;1") 0 "r" 0
          ⟨none, [("absurde_user_id", "u")], true⟩).2).1 "a" =
      some "data:image/png;1" :=
  save_local_roundtrip ⟨none, [("absurde_user_id", "u")], true⟩ "u" "a"
    "data:image/png;1" 0 1 "r" "s" 0 rfl rfl (by decide) (by decide)
    (by decide)

theorem local_prefix_aliasing_witness :
    objGet (loadUserLetterings 1 "s"
        ⟨none,
         objSet ((saveLettering (.str "c") (.str "data:image/png;3") 0 "r" 0
             ⟨none, [("absurde_user_id", "u_x")], true⟩).2).localStorage
           USER_ID_KEY "u",
         true⟩).1 ("x" ++ "_" ++ "c") = some "data:image/png;3" :=
  local_prefix_aliasing ⟨none, [("absurde_user_id", "u_x")], true⟩ "u" "x"
    "c" "data:image/png;3" 0 1 "r" "s" 0 rfl rfl (by decide) (by decide)
    (by decide)

/-- C1 (code bug): identity `"u"` has saved character `"c"` against the
remote store, yet `resolve(u, ["c"])` returns the entry with provenance
`"global"`, not OWN — the dotted-key `setDoc` write parks the pointer in a
literal `"charMap.c"` field, the loads read the nested `charMap` (empty),
and the saved artifact only reaches the result through the step-2
global-pool fallback, violating own-priority (spec P3, and the source's
own "Priority: 1. User's own glyph" comment). -/
theorem resolve_own_priority_bug :
    objGet (loadAllLetteringsForInteraction (some [JSVal.str "c"]) 1 "q"
        (fun _ => 0) (fun _ => false)
        (saveLettering (.str "c") (.str "data:image/png;own") 0 "r" 0
          ⟨some ⟨[], []⟩, [("absurde_user_id", "u")], true⟩).2).1 "c" =
      some ⟨"data:image/png;own", "global"⟩ := by
  decide

/-- C2 (code bug): after `save(u, "a", img1)` then `save(u, "b", img2)`
against the remote store, `loadOwnArtifacts(u)` returns the empty map, not
both pointers. The resulting store (second conjunct) shows why: both
merges landed in literal top-level fields `"charMap.a"`/`"charMap.b"`
(`dotFields`), while the nested `charMap` field — the one both load paths
read via `data().charMap || {}` — stayed empty, contradicting the
repository's own documented layout (FIREBASE_SETUP.md) and the comment
"Use set with merge to preserve existing mappings". -/
theorem save_merge_bug :
    (loadUserLetterings 2 "t"
        (saveLettering (.str "b") (.str "data:image/png;2") 1 "s" 1
          (saveLettering (.str "a") (.str "data:image/png;1") 0 "r" 0
            ⟨some ⟨[], []⟩, [("absurde_user_id", "u")], true⟩).2).2).1 = [] ∧
    (saveLettering (.str "b") (.str "data:image/png;2") 1 "s" 1
        (saveLettering (.str "a") (.str "data:image/png;1") 0 "r" 0
          ⟨some ⟨[], []⟩, [("absurde_user_id", "u")], true⟩).2).2 =
      ⟨some ⟨[⟨"a", "data:image/png;1", 0, "u"⟩,
             ⟨"b", "data:image/png;2", 1, "u"⟩],
            [("u", ⟨[], [("charMap.a", 0), ("charMap.b", 1)]⟩)]⟩,
        [("absurde_user_id", "u")], true⟩ := by
  constructor
  · decide
  · decide
